import Mathlib

/-!
Verification of `scripts/generate_report.py` (Windows-Report repository).

The script is a straight-line ETL pipeline: fetch Microsoft Update Catalog
RSS feeds, extract KB numbers, parse RFC-822-ish dates, filter to the last
30 days, deduplicate, sort newest-first, and render a static HTML report.

This file gives a shallow embedding of the script's pure core:
  * `extract_kbs`            (generate_report.py lines 97-101)
  * `try_parse_date_rss`     (lines 103-120)
  * `html_escape`            (lines 122-123)
  * `collect_updates`        (lines 129-179), with the HTTP fetch and XML
    parse outcomes modelled as explicit data (`FetchOutcome`), since the
    code turns both failure modes into an empty item list (lines 77-80 and
    134-139)
  * `render_html`            (lines 181-278)

Strings are Python `str` values over code points; we model them with Lean
`String` / `List Char` (the ASCII fragment of Python's `\w`/`\s` classes,
which is all the feeds ever contain, is modelled exactly).  `datetime`
values (always UTC in the script) are modelled as seconds since the Unix
epoch (`Int`); comparison of aware UTC datetimes coincides with comparison
of their epoch seconds.
-/

namespace WindowsReport

/-! ## Character classes (ASCII fragment of Python's `re` classes) -/

/-- Python regex word character `\w` (ASCII fragment): letter, digit or
underscore. -/
def isWordChar (c : Char) : Bool :=
  c.isAlpha || c.isDigit || c == '_'

/-- Python `\s` / `str.strip` whitespace (ASCII fragment):
space, tab, newline, carriage return, vertical tab, form feed. -/
def isPyWs (c : Char) : Bool :=
  c == ' ' || c == '\t' || c == '\n' || c == '\r' || c == '\x0b' || c == '\x0c'

/-! ## `extract_kbs` (lines 97-101)

`KB_RE = re.compile(r"\bKB\d+\b", re.IGNORECASE)`
`extract_kbs(text) = sorted(set(m.group(0).upper() for m in KB_RE.finditer(text)))`

`finditer` scans left to right; a match needs a non-word character (or the
string start) before the `K`, the two letters `KB` in any case, a maximal
nonempty digit run, and then a non-word character (or the end) — after a
maximal digit run the following character is a non-digit, so the trailing
`\b` fails exactly when that character is a letter or underscore, and
backtracking the greedy `\d+` cannot help because the character after a
shorter run is a digit.  Scanning resumes after each match.  We realise the
scan as a state machine over the character list. -/

/-- State of the KB scanner: in `base`, `prevWord` says whether the
previously consumed character was a word character (so `\b` fails);
`sawK`/`inDigits` record a partially matched candidate. -/
inductive KbState where
  | base (prevWord : Bool)
  | sawK (k : Char)
  | inDigits (k b : Char) (ds : List Char)
deriving Repr, DecidableEq

/-- One finished match, `k`/`b` as they appeared, digits `ds` (nonempty). -/
def kbFinish (k b : Char) (ds : List Char) : List Char :=
  k :: b :: ds.reverse

/-- The KB scanner.  Mirrors `KB_RE.finditer`: emits each match's text, in
order of occurrence.  Each step consumes one character.  When a candidate
is abandoned (`sawK` with no `B`, or `KB` with no digit, or digits
followed by a letter/underscore), `finditer` retries at the next
positions, but every position before the current character `c` is
preceded by a word character (`K`, `B` or a digit), so no match can start
there and the scan degenerates to the plain `base` transition on `c` —
note `c` itself cannot open a match either in those branches, because the
character before it was a word character. -/
def kbGo : List Char → KbState → List (List Char)
  | [], KbState.base _ => []
  | [], KbState.sawK _ => []
  | [], KbState.inDigits k b ds => if ds.isEmpty then [] else [kbFinish k b ds]
  | c :: rest, KbState.base prevWord =>
    if (c == 'K' || c == 'k') && !prevWord then
      kbGo rest (KbState.sawK c)
    else
      kbGo rest (KbState.base (isWordChar c))
  | c :: rest, KbState.sawK k =>
    if c == 'B' || c == 'b' then
      kbGo rest (KbState.inDigits k c [])
    else
      kbGo rest (KbState.base (isWordChar c))
  | c :: rest, KbState.inDigits k b ds =>
    if c.isDigit then
      kbGo rest (KbState.inDigits k b (c :: ds))
    else if ds.isEmpty then
      kbGo rest (KbState.base (isWordChar c))
    else if isWordChar c then
      -- trailing `\b` fails (a letter/underscore follows the digits).
      kbGo rest (KbState.base (isWordChar c))
    else
      -- boundary after the digits: emit; `c` is not a word character, so
      -- it cannot be `K`/`k`, and scanning resumes past it.
      kbFinish k b ds :: kbGo rest (KbState.base (isWordChar c))

/-- Python `str.upper` on the characters a KB match can contain (ASCII). -/
def charUpper (c : Char) : Char := c.toUpper

/-- Lexicographic strict order on strings by code point — Python's `<` on
`str`. -/
def strLt : List Char → List Char → Bool
  | [], [] => false
  | [], _ :: _ => true
  | _ :: _, [] => false
  | a :: as', b :: bs' => if a < b then true else if a > b then false else strLt as' bs'

/-- `a ≤ b` in Python string order. -/
def strLe (a b : String) : Bool := !(strLt b.data a.data)

/-- Insert into a list sorted ascending by `strLe`. -/
def insertStr (a : String) : List String → List String
  | [] => [a]
  | b :: t => if strLe a b then a :: b :: t else b :: insertStr a t

/-- Ascending insertion sort by `strLe` — realises Python's
`sorted` on a set of strings (the elements are distinct, so any correct
sort produces the same list). -/
def sortStrs : List String → List String
  | [] => []
  | a :: t => insertStr a (sortStrs t)

/-- Keep the first occurrence of each element (realises `set(...)` before
sorting; the pre-sort order is irrelevant once sorted). -/
def dedupStrs : List String → List String
  | [] => []
  | a :: t => if a ∈ t then dedupStrs t else a :: dedupStrs t

/-- `extract_kbs` (lines 99-101): all `\bKB\d+\b` matches (case
insensitive), uppercased, deduplicated, sorted. -/
def extract_kbs (text : String) : List String :=
  sortStrs (dedupStrs (((kbGo text.data (KbState.base false)).map
    (fun m => String.mk (m.map charUpper)))))

/-! ## Calendar arithmetic

The script's `datetime` values are always UTC-aware; we model an instant as
seconds since the Unix epoch (`Int`).  Conversion from a proleptic
Gregorian civil date uses the standard era decomposition; `%Y` parses
exactly four digits, so years lie in `0..9999` and we shift by 400 years
to stay in `Nat` internally. -/

def isLeapYear (y : Nat) : Bool :=
  y % 4 == 0 && (y % 100 != 0 || y % 400 == 0)

def daysInMonth (y m : Nat) : Nat :=
  if m == 2 then (if isLeapYear y then 29 else 28)
  else if m == 4 || m == 6 || m == 9 || m == 11 then 30
  else 31

/-- Days from 1970-01-01 to civil date `y-m-d` (year `0 ≤ y ≤ 9999`,
month `1..12`). -/
def daysSinceEpoch (y m d : Nat) : Int :=
  let y2 := y + 400
  let yAdj := if m ≤ 2 then y2 - 1 else y2
  let era := yAdj / 400
  let yoe := yAdj % 400
  let mp := (m + 9) % 12
  let doy := (153 * mp + 2) / 5 + (d - 1)
  let doe := yoe * 365 + yoe / 4 - yoe / 100 + doy
  (((era * 146097 + doe : Nat) : Int)) - 146097 - 719468

/-- Seconds since the Unix epoch of the UTC instant `y-m-d h:mi:s`. -/
def toEpochSecs (y m d h mi s : Nat) : Int :=
  daysSinceEpoch y m d * 86400 + (h * 3600 + mi * 60 + s : Nat)

/-- Civil date `(y, m, d)` of the day containing epoch instant `t`
(inverse of `daysSinceEpoch`, floor semantics via Euclidean division). -/
def civilFromSecs (t : Int) : Nat × Nat × Nat :=
  let z := Int.toNat (Int.ediv t 86400 + 719468 + 146097 * 3000)
  let era := z / 146097
  let doe := z % 146097
  let yoe := (doe - doe / 1460 + doe / 36524 - doe / 146096) / 365
  let y := yoe + era * 400
  let doy := doe - (365 * yoe + yoe / 4 - yoe / 100)
  let mp := (5 * doy + 2) / 153
  let d := doy - (153 * mp + 2) / 5 + 1
  let m := if mp < 10 then mp + 3 else mp - 9
  (if m ≤ 2 then y + 1 - 400 * 3000 else y - 400 * 3000, m, d)

/-! ## `try_parse_date_rss` (lines 103-120)

The script tries four `strptime` formats in order and falls back to the
Unix epoch:

```
fmts = ["%a, %d %b %Y %H:%M:%S %Z",
        "%a, %d %b %Y %H:%M:%S GMT",
        "%a, %d %b %Y %H:%M:%S +0000",
        "%d %b %Y %H:%M:%S %Z"]
for f in fmts: try: return strptime(s, f) (as UTC) except: pass
return datetime(1970, 1, 1, tzinfo=utc)
```

CPython's `_strptime` compiles each format to a regex (IGNORECASE): `%a`
matches a weekday abbreviation, `%d` `3[01]|[12]\d|0[1-9]|[1-9]`, `%b` a
month abbreviation, `%Y` exactly four digits, `%H` `2[0-3]|[0-1]\d|\d`,
`%M`/`%S` `[0-5]\d|\d` (`%S` also allows 60/61, which the later
`datetime` constructor rejects — making the format attempt fail, exactly
as an outright parse failure does), runs of whitespace in the format match
`\s+` in the input, literal text matches case-insensitively, and `%Z`
matches a known timezone name (in a UTC environment: `UTC` or `GMT`).
The whole input must be consumed.  Alternations prefer the two-digit
branch; the one-digit fallback can only complete a parse when the
two-digit branch cannot (the following token never matches a digit), so
taking the first completed parse is faithful.  The `datetime` constructor
then validates the day against the month length and rejects year 0. -/

/-- The format tokens occurring in the four formats. -/
inductive FmtTok where
  | lit (cs : List Char)  -- literal text, matched case-insensitively
  | ws                    -- a whitespace run (`\s+`)
  | wd                    -- `%a`
  | day                   -- `%d`
  | mon                   -- `%b`
  | year4                 -- `%Y`
  | hh                    -- `%H`
  | mins                  -- `%M`
  | secs                  -- `%S`
  | tzname                -- `%Z`

/-- Partial parse state: the fields a format can set. -/
structure DateParts where
  d : Nat := 1
  m : Nat := 1
  y : Nat := 1900
  hh : Nat := 0
  mi : Nat := 0
  ss : Nat := 0
deriving Repr, DecidableEq

def lowerChar (c : Char) : Char := c.toLower

/-- Case-insensitive match of a literal, consuming it. -/
def takeLitCI : List Char → List Char → Option (List Char)
  | [], cs => some cs
  | _ :: _, [] => none
  | l :: ls, c :: cs => if lowerChar c == lowerChar l then takeLitCI ls cs else none

def weekdayAbbrs : List (List Char) :=
  ["mon".data, "tue".data, "wed".data, "thu".data, "fri".data, "sat".data, "sun".data]

def monthAbbrs : List (List Char) :=
  ["jan".data, "feb".data, "mar".data, "apr".data, "may".data, "jun".data,
   "jul".data, "aug".data, "sep".data, "oct".data, "nov".data, "dec".data]

def tznameAbbrs : List (List Char) :=
  ["utc".data, "gmt".data]

/-- Match one name from a list (case-insensitively); returns its 1-based
index and the rest. -/
def takeName (names : List (List Char)) (cs : List Char) (i : Nat) :
    Option (Nat × List Char) :=
  match names with
  | [] => none
  | n :: ns =>
    match takeLitCI n cs with
    | some rest => some (i, rest)
    | none => takeName ns cs (i + 1)

def digitVal (c : Char) : Nat := c.toNat - 48

/-- Candidate parses of a 1-or-2-digit numeric field, two-digit branch
first (regex alternation preference), each candidate filtered by the
field's regex range. -/
def numCands (lo2 hi2 lo1 hi1 : Nat) (cs : List Char) : List (Nat × List Char) :=
  let two :=
    match cs with
    | a :: b :: rest =>
      if a.isDigit && b.isDigit then
        let v := digitVal a * 10 + digitVal b
        if lo2 ≤ v && v ≤ hi2 then [(v, rest)] else []
      else []
    | _ => []
  let one :=
    match cs with
    | a :: rest =>
      if a.isDigit then
        let v := digitVal a
        if lo1 ≤ v && v ≤ hi1 then [(v, rest)] else []
      else []
    | _ => []
  two ++ one

/-- Exactly four digits (`%Y`). -/
def takeYear4 : List Char → List (Nat × List Char)
  | a :: b :: c :: d :: rest =>
    if a.isDigit && b.isDigit && c.isDigit && d.isDigit then
      [(digitVal a * 1000 + digitVal b * 100 + digitVal c * 10 + digitVal d, rest)]
    else []
  | _ => []

/-- Run one token: all candidate `(state, rest)` continuations, in regex
preference order. -/
def runTok (t : FmtTok) (st : DateParts) (cs : List Char) :
    List (DateParts × List Char) :=
  match t with
  | FmtTok.lit l =>
    match takeLitCI l cs with
    | some rest => [(st, rest)]
    | none => []
  | FmtTok.ws =>
    -- `\s+`; the following token never matches whitespace, so the greedy
    -- maximal run is the only viable candidate.
    match cs with
    | c :: _ =>
      if isPyWs c then [(st, cs.dropWhile isPyWs)] else []
    | [] => []
  | FmtTok.wd =>
    match takeName weekdayAbbrs cs 1 with
    | some (_, rest) => [(st, rest)]
    | none => []
  | FmtTok.day => (numCands 1 31 1 9 cs).map (fun p => ({ st with d := p.1 }, p.2))
  | FmtTok.mon =>
    match takeName monthAbbrs cs 1 with
    | some (i, rest) => [({ st with m := i }, rest)]
    | none => []
  | FmtTok.year4 => (takeYear4 cs).map (fun p => ({ st with y := p.1 }, p.2))
  | FmtTok.hh => (numCands 0 23 0 9 cs).map (fun p => ({ st with hh := p.1 }, p.2))
  | FmtTok.mins => (numCands 0 59 0 9 cs).map (fun p => ({ st with mi := p.1 }, p.2))
  | FmtTok.secs => (numCands 0 61 0 9 cs).map (fun p => ({ st with ss := p.1 }, p.2))
  | FmtTok.tzname =>
    match takeName tznameAbbrs cs 1 with
    | some (_, rest) => [(st, rest)]
    | none => []

/-- Run a token sequence; candidates in regex preference order. -/
def runToks (ts : List FmtTok) (st : DateParts) (cs : List Char) :
    List (DateParts × List Char) :=
  match ts with
  | [] => [(st, cs)]
  | t :: ts' => (runTok t st cs).flatMap (fun p => runToks ts' p.1 p.2)

/-- First parse that consumes the whole input (the regex's preferred
match). -/
def fullParse (ts : List FmtTok) (cs : List Char) : Option DateParts :=
  (runToks ts {} cs).findSome? (fun p => if p.2.isEmpty then some p.1 else none)

/-- The `datetime` constructor's validation: year ≥ 1, day within the
month, seconds ≤ 59 (leap seconds rejected). -/
def validDate (p : DateParts) : Bool :=
  1 ≤ p.y && 1 ≤ p.d && p.d ≤ daysInMonth p.y p.m && p.ss ≤ 59

/-- One `strptime` attempt: preferred full match, then constructor
validation; result as epoch seconds (the script attaches `tzinfo=utc`). -/
def strptimeFmt (ts : List FmtTok) (s : String) : Option Int :=
  match fullParse ts s.data with
  | some p => if validDate p then some (toEpochSecs p.y p.m p.d p.hh p.mi p.ss) else none
  | none => none

/-- `"%a, %d %b %Y %H:%M:%S %Z"` -/
def fmt1 : List FmtTok :=
  [FmtTok.wd, FmtTok.lit [','], FmtTok.ws, FmtTok.day, FmtTok.ws, FmtTok.mon,
   FmtTok.ws, FmtTok.year4, FmtTok.ws, FmtTok.hh, FmtTok.lit [':'], FmtTok.mins,
   FmtTok.lit [':'], FmtTok.secs, FmtTok.ws, FmtTok.tzname]

/-- `"%a, %d %b %Y %H:%M:%S GMT"` -/
def fmt2 : List FmtTok :=
  [FmtTok.wd, FmtTok.lit [','], FmtTok.ws, FmtTok.day, FmtTok.ws, FmtTok.mon,
   FmtTok.ws, FmtTok.year4, FmtTok.ws, FmtTok.hh, FmtTok.lit [':'], FmtTok.mins,
   FmtTok.lit [':'], FmtTok.secs, FmtTok.ws, FmtTok.lit "gmt".data]

/-- `"%a, %d %b %Y %H:%M:%S +0000"` -/
def fmt3 : List FmtTok :=
  [FmtTok.wd, FmtTok.lit [','], FmtTok.ws, FmtTok.day, FmtTok.ws, FmtTok.mon,
   FmtTok.ws, FmtTok.year4, FmtTok.ws, FmtTok.hh, FmtTok.lit [':'], FmtTok.mins,
   FmtTok.lit [':'], FmtTok.secs, FmtTok.ws, FmtTok.lit "+0000".data]

/-- `"%d %b %Y %H:%M:%S %Z"` -/
def fmt4 : List FmtTok :=
  [FmtTok.day, FmtTok.ws, FmtTok.mon, FmtTok.ws, FmtTok.year4, FmtTok.ws,
   FmtTok.hh, FmtTok.lit [':'], FmtTok.mins, FmtTok.lit [':'], FmtTok.secs,
   FmtTok.ws, FmtTok.tzname]

/-- The loop over the four formats (lines 108-118): first success wins. -/
def parseAnyRssDate (s : String) : Option Int :=
  match strptimeFmt fmt1 s with
  | some t => some t
  | none =>
    match strptimeFmt fmt2 s with
    | some t => some t
    | none =>
      match strptimeFmt fmt3 s with
      | some t => some t
      | none => strptimeFmt fmt4 s

/-- `try_parse_date_rss` (lines 103-120): on total failure return the Unix
epoch (line 120: "If unknown, return epoch so it likely filters out"). -/
def try_parse_date_rss (s : String) : Int :=
  match parseAnyRssDate s with
  | some t => t
  | none => 0

/-! ## `html_escape` (lines 122-123)

`html.escape(s, quote=True)` replaces `&`, `<`, `>`, `"`, `'` by their
entities.  The sequential `str.replace` calls are equivalent to a single
character-wise map because no later replacement's target occurs in an
earlier replacement's output. -/

def escChar (c : Char) : List Char :=
  if c = '&' then "&amp;".data
  else if c = '<' then "&lt;".data
  else if c = '>' then "&gt;".data
  else if c = '"' then "&quot;".data
  else if c = '\x27' then "&#x27;".data
  else [c]

def html_escape (s : String) : String :=
  String.mk (s.data.flatMap escChar)

/-! ## Description cleanup (lines 149-155)

```
clean_desc = title
if not clean_desc and desc:
    clean_desc = re.sub("<[^>]+>", " ", desc)
    clean_desc = re.sub(r"\s+", " ", clean_desc).strip()
```
-/

/-- `re.sub("<[^>]+>", " ", ·)`: each leftmost occurrence of `<`, at least
one non-`>` character, `>` is replaced by a single space; scanning resumes
after the `>`.  Realised with an accumulator holding the pending
inside-a-candidate-tag characters (which may include further `<`). -/
def stripTagsGo : List Char → Option (List Char) → List Char
  | [], none => []
  | [], some pend =>
    -- unterminated candidate: no match; flush it verbatim (no later `>`
    -- exists, so nothing inside it can match either).
    '<' :: pend.reverse
  | c :: rest, none =>
    if c = '<' then stripTagsGo rest (some []) else c :: stripTagsGo rest none
  | c :: rest, some pend =>
    if c = '>' then
      if pend.isEmpty then
        -- `<>`: `[^>]+` needs at least one character, no match; both
        -- characters stand.
        '<' :: '>' :: stripTagsGo rest none
      else ' ' :: stripTagsGo rest none
    else stripTagsGo rest (some (c :: pend))

def stripTags (s : List Char) : List Char := stripTagsGo s none

/-- `re.sub(r"\s+", " ", ·)`: each whitespace run becomes one space.
`inRun` records whether the previous character was whitespace (so the
current whitespace belongs to an already-replaced run). -/
def squeezeGo : List Char → Bool → List Char
  | [], _ => []
  | c :: rest, inRun =>
    if isPyWs c then
      (if inRun then [] else [' ']) ++ squeezeGo rest true
    else c :: squeezeGo rest false

def squeezeWs (cs : List Char) : List Char := squeezeGo cs false

/-- Remove trailing Python whitespace. -/
def dropTrailingWs : List Char → List Char
  | [] => []
  | c :: rest =>
    let r := dropTrailingWs rest
    if r.isEmpty && isPyWs c then [] else c :: r

/-- `str.strip()` (both ends). -/
def stripEnds (cs : List Char) : List Char :=
  dropTrailingWs (cs.dropWhile isPyWs)

/-- `re.sub(r"\s+", " ", s).strip()`. -/
def collapseWs (cs : List Char) : List Char :=
  stripEnds (squeezeWs cs)

/-- The description the script puts in a row (lines 150-155): the raw
title, falling back — only when the title is empty and the description
nonempty — to the tag-stripped, whitespace-collapsed description. -/
def clean_desc (title desc : String) : String :=
  if title = "" && desc ≠ "" then String.mk (collapseWs (stripTags desc.data))
  else title

/-! ## Data model (lines 31-46, 157-165) -/

/-- One `FEEDS` entry: display name, RSS URL, Release Health landing. -/
structure Feed where
  name : String
  url : String
  health : String
deriving Repr, DecidableEq

/-- The configured `FEEDS` list (lines 31-43). -/
def FEEDS : List Feed :=
  [⟨"Windows 11",
    "http://www.catalog.update.microsoft.com/Feed.aspx?Product=Windows%2011",
    "https://learn.microsoft.com/windows/release-health/"⟩,
   ⟨"Windows 10",
    "http://www.catalog.update.microsoft.com/Feed.aspx?Product=Windows%2010",
    "https://learn.microsoft.com/windows/release-health/"⟩,
   ⟨"Windows Server 2022",
    "http://www.catalog.update.microsoft.com/Feed.aspx?Product=Windows%20Server%202022",
    "https://learn.microsoft.com/windows/release-health/"⟩,
   ⟨"Windows Server 2019",
    "http://www.catalog.update.microsoft.com/Feed.aspx?Product=Windows%20Server%202019",
    "https://learn.microsoft.com/windows/release-health/"⟩,
   ⟨"Windows Server 2016",
    "http://www.catalog.update.microsoft.com/Feed.aspx?Product=Windows%20Server%202016",
    "https://learn.microsoft.com/windows/release-health/"⟩]

/-- `DAYS_BACK = 30` (line 45). -/
def DAYS_BACK : Nat := 30

/-- An RSS `<item>` as produced by `parse_rss` (lines 83-94; the four
fields are already `.strip()`ed there). -/
structure Item where
  title : String
  link : String
  pubDate : String
  description : String
deriving Repr, DecidableEq

/-- The outcome of `http_get` + `parse_rss` for one feed.  `fetchFailed`
models `http_get` raising after exhausting its retries (caught at lines
134-139, yielding `items = []`); `malformedXml` models `ET.ParseError`
(lines 77-80, `parse_rss` returns `[]`). -/
inductive FetchOutcome where
  | fetchFailed
  | malformedXml
  | parsed (items : List Item)
deriving Repr, DecidableEq

/-- The item list a source contributes (lines 77-80 and 134-139): both
failure modes contribute no items, and neither propagates an exception. -/
def itemsOf : FetchOutcome → List Item
  | FetchOutcome.fetchFailed => []
  | FetchOutcome.malformedXml => []
  | FetchOutcome.parsed items => items

/-- A report row (lines 157-165). -/
structure Row where
  product : String
  description : String
  kbs : List String
  date : Int
  source : String
  source_link : String
  health_link : String
deriving Repr, DecidableEq

/-- The row built from one feed item (lines 141-165). -/
def rowOfItem (f : Feed) (it : Item) : Row :=
  { product := f.name
    description := clean_desc it.title it.description
    kbs :=
      match extract_kbs (it.title ++ " " ++ it.description) with
      | [] => ["—"]
      | ks => ks
    date := try_parse_date_rss it.pubDate
    source := "Update Catalog RSS"
    source_link := it.link
    health_link := f.health }

/-- Rows of one source after the recency filter (lines 141-165:
`if dt < cutoff: continue`). -/
def rowsOfSource (cutoff : Int) (p : Feed × FetchOutcome) : List Row :=
  (itemsOf p.2).filterMap (fun it =>
    let dt := try_parse_date_rss it.pubDate
    if dt < cutoff then none else some (rowOfItem p.1 it))

/-- The dedup key (line 171): `(r["product"], r["description"],
tuple(r["kbs"]))`. -/
def rowKey (r : Row) : String × String × List String :=
  (r.product, r.description, r.kbs)

/-- The dedup loop (lines 167-175): first-seen key wins. -/
def dedupeGo (seen : List (String × String × List String)) : List Row → List Row
  | [] => []
  | r :: rest =>
    if rowKey r ∈ seen then dedupeGo seen rest
    else r :: dedupeGo (rowKey r :: seen) rest

def dedupe (rows : List Row) : List Row := dedupeGo [] rows

/-- Stable insertion step for the descending-by-date sort. -/
def insertRow (a : Row) : List Row → List Row
  | [] => [a]
  | b :: t => if b.date ≤ a.date then a :: b :: t else b :: insertRow a t

/-- `unique.sort(key=lambda r: r["date"], reverse=True)` (line 178):
Python's sort is stable and descending sorts do not reverse equal keys;
a stable descending sort's output is uniquely determined, and this
insertion sort is stable (each element is inserted in front of the
already-placed later elements with an equal date). -/
def sortRows : List Row → List Row
  | [] => []
  | a :: t => insertRow a (sortRows t)

/-- All candidate rows of the run, feeds in `FEEDS` order. -/
def dedupedRows (cutoff : Int) (fetched : List (Feed × FetchOutcome)) : List Row :=
  dedupe ((fetched.map (rowsOfSource cutoff)).flatten)

/-- `collect_updates` (lines 129-179), with the clock and the per-feed
fetch/parse outcomes as explicit inputs: `cutoff = now - 30 days`
(line 130; `timedelta(days=30)` is exactly `30 * 86400` seconds). -/
def collect_updates (now : Int) (fetched : List (Feed × FetchOutcome)) : List Row :=
  sortRows (dedupedRows (now - DAYS_BACK * 86400) fetched)

/-- The aggregation step in isolation (filter by cutoff, dedup, sort);
the spec calls it `aggregate`.  `collect_updates` factors through it
(`collect_eq_aggregate` below). -/
def aggregate (cutoff : Int) (rows : List Row) : List Row :=
  sortRows (dedupe (rows.filter (fun r => !(r.date < cutoff))))

/-! ## `render_html` (lines 181-278)

The renderer is pure string interpolation; the script's only impurity is
`datetime.now` for the "Generated" stamp, which we pass in as `now`.
Literal braces and apostrophes inside the CSS/JS strings are written with
`\x7b`, `\x7d`, `\x27` escapes; the strings are identical to the
script's. -/

def digitChar (k : Nat) : Char :=
  match k % 10 with
  | 0 => '0' | 1 => '1' | 2 => '2' | 3 => '3' | 4 => '4'
  | 5 => '5' | 6 => '6' | 7 => '7' | 8 => '8' | _ => '9'

/-- Two-digit zero-padded decimal (`%d`, `%H`, `%M` on their ranges). -/
def pad2 (n : Nat) : String :=
  String.mk [digitChar (n / 10), digitChar n]

/-- Four-digit zero-padded decimal (`%Y`; parsed years are ≤ 9999). -/
def pad4 (n : Nat) : String :=
  String.mk [digitChar (n / 1000), digitChar (n / 100), digitChar (n / 10), digitChar n]

def monthNamesCap : List String :=
  ["Jan", "Feb", "Mar", "Apr", "May", "Jun",
   "Jul", "Aug", "Sep", "Oct", "Nov", "Dec"]

def monthAbbrCap (m : Nat) : String := monthNamesCap.getD (m - 1) ""

/-- `fmt_date` (lines 185-186): `dt.strftime("%b %d, %Y")`. -/
def fmt_date (t : Int) : String :=
  let c := civilFromSecs t
  monthAbbrCap c.2.1 ++ " " ++ pad2 c.2.2 ++ ", " ++ pad4 c.1

/-- `gen_ts` (line 183): `now.strftime("%Y-%m-%d %H:%M UTC")`. -/
def fmtTimestamp (t : Int) : String :=
  let c := civilFromSecs t
  let sod := Int.toNat (Int.emod t 86400)
  pad4 c.1 ++ "-" ++ pad2 c.2.1 ++ "-" ++ pad2 c.2.2 ++ " " ++
    pad2 (sod / 3600) ++ ":" ++ pad2 (sod % 3600 / 60) ++ " UTC"

/-- The `css` literal (lines 189-211). -/
def cssText : String :=
  "\n    :root\x7bcolor-scheme:dark\x7d\n    body\x7bfont-family:Inter,system-ui,Segoe UI,Roboto,Arial,sans-serif;margin:0;background:#0b1220;color:#e9eef7\x7d\n    header\x7bpadding:28px 20px;border-bottom:1px solid #1b2743\x7d\n    h1\x7bmargin:0 0 8px 0;font-size:22px\x7d\n    .meta\x7bopacity:.75;font-size:13px\x7d\n    .wrap\x7bmax-width:1200px;margin:0 auto\x7d\n    .controls\x7bdisplay:flex;gap:10px;margin:16px 0\x7d\n    .btn\x7bpadding:8px 12px;border-radius:8px;background:#1a2a44;border:1px solid #243b63;color:#dfe8ff;text-decoration:none;font-size:13px\x7d\n    .btn:hover\x7bbackground:#21365b\x7d\n    table\x7bwidth:100%;border-collapse:collapse;margin:12px 0 40px 0\x7d\n    th,td\x7bpadding:12px;border-bottom:1px solid #1b2743;vertical-align:top;font-size:14px\x7d\n    th\x7bopacity:.9;text-align:left\x7d\n    .kb\x7bdisplay:inline-block;background:#0f2244;border:1px solid #25447a;color:#b8d1ff;border-radius:6px;padding:2px 8px;margin:2px 6px 2px 0;font-size:12px\x7d\n    .pill\x7bdisplay:inline-block;background:#15253f;border:1px solid #25447a;color:#cfe0ff;border-radius:999px;padding:4px 10px;font-size:12px\x7d\n    .src\x7bdisplay:inline-block;background:#0d1c33;border:1px solid #223b6e;color:#a9c5ff;border-radius:999px;padding:4px 10px;font-size:12px;text-decoration:none\x7d\n    .src:hover\x7bbackground:#12274d\x7d\n    .known\x7bdisplay:inline-block;background:#38210a;border:1px solid #6a3c12;color:#ffd9a8;border-radius:999px;padding:4px 10px;font-size:12px;text-decoration:none\x7d\n    .known:hover\x7bbackground:#4a2b0f\x7d\n    .muted\x7bopacity:.7\x7d\n    input[type=\"search\"]\x7bwidth:360px;background:#09132a;border:1px solid #20355e;border-radius:8px;padding:8px 10px;color:#e9eef7\x7d\n    select\x7bbackground:#09132a;border:1px solid #20355e;border-radius:8px;padding:8px 10px;color:#e9eef7\x7d\n    "

/-- The `js` literal (lines 214-223). -/
def jsText : String :=
  "\n    function filterRows()\x7b\n      const q = document.getElementById(\x27q\x27).value.toLowerCase();\n      const rows = document.querySelectorAll(\x27tbody tr\x27);\n      rows.forEach(tr=>\x7b\n        const t = tr.textContent.toLowerCase();\n        tr.style.display = (t.indexOf(q) !== -1) ? \x27\x27 : \x27none\x27;\n      \x7d);\n    \x7d\n    "

/-- One KB badge (line 228). -/
def kbSpan (kb : String) : String :=
  "<span class=\"kb\">" ++ html_escape kb ++ "</span>"

/-- `" ".join` — the pieces separated by single spaces. -/
def joinSpace : List String → String
  | [] => ""
  | [x] => x
  | x :: y :: xs => x ++ " " ++ joinSpace (y :: xs)

/-- `kb_html` (line 228): `" ".join(...)`. -/
def kbHtml (kbs : List String) : String :=
  joinSpace (kbs.map kbSpan)

/-- One data row (lines 229-238), the f-string verbatim. -/
def rowHtml (r : Row) : String :=
  "\n        <tr>\n          <td>" ++ html_escape r.product ++
  "</td>\n          <td>" ++ html_escape r.description ++
  "</td>\n          <td>" ++ (if kbHtml r.kbs = "" then "—" else kbHtml r.kbs) ++
  "</td>\n          <td><a class=\"known\" href=\"" ++ html_escape r.health_link ++
  "\" target=\"_blank\" rel=\"noopener\">Release Health</a></td>\n          <td>" ++
  fmt_date r.date ++
  "</td>\n          <td><a class=\"src\" href=\"" ++ html_escape r.source_link ++
  "\" target=\"_blank\" rel=\"noopener\">" ++ html_escape r.source ++
  "</a></td>\n        </tr>\n        "

/-- `body_rows` (lines 226-238). -/
def body_rows (rows : List Row) : List String := rows.map rowHtml

/-- The placeholder row (line 270, `else` branch). -/
def noUpdatesRow : String :=
  "<tr><td colspan=\"6\" class=\"muted\">No updates in the selected window.</td></tr>"

/-- The `<tbody>` payload (line 270):
`''.join(body_rows) if body_rows else noUpdatesRow`. -/
def tbodyContent (rows : List Row) : String :=
  if (body_rows rows).isEmpty then noUpdatesRow else String.join (body_rows rows)

/-- `render_html` (lines 181-278), the `html_out` f-string verbatim, with
the clock passed in. -/
def render_html (now : Int) (rows : List Row) : String :=
  let count := rows.length
  let gen_ts := fmtTimestamp now
  "<!doctype html>\n<html lang=\"en\">\n<meta charset=\"utf-8\">\n<meta name=\"viewport\" content=\"width=device-width,initial-scale=1\">\n<title>Windows Updates (Last " ++
  Nat.repr DAYS_BACK ++ " Days)</title>\n<style>" ++ cssText ++
  "</style>\n<body>\n  <header>\n    <div class=\"wrap\">\n      <h1>Windows Updates (Last " ++
  Nat.repr DAYS_BACK ++ " Days)</h1>\n      <div class=\"meta\">Showing " ++
  Nat.repr count ++ " updates • Generated " ++ gen_ts ++
  "</div>\n      <div class=\"controls\">\n        <input id=\"q\" type=\"search\" placeholder=\"Search CVE, KB, description, OS…\" oninput=\"filterRows()\">\n        <a class=\"btn\" href=\"#\" onclick=\"window.print();return false;\">Print / PDF</a>\n      </div>\n    </div>\n  </header>\n  <div class=\"wrap\">\n    <table>\n      <thead>\n        <tr>\n          <th>OS</th>\n          <th>Description</th>\n          <th>KB(s)</th>\n          <th>Known Issues</th>\n          <th>Release Date</th>\n          <th>Source</th>\n        </tr>\n      </thead>\n      <tbody>\n        " ++
  tbodyContent rows ++
  "\n      </tbody>\n    </table>\n    <div class=\"muted\">Sources: Microsoft Update Catalog RSS; Windows Release Health landing pages.</div>\n  </div>\n<script>" ++
  jsText ++ "</script>\n</body>\n</html>"

/-! ## Substring and character counting (for the statements below) -/

/-- `pat` is a prefix of `hay`. -/
def startsWithL : List Char → List Char → Bool
  | [], _ => true
  | _ :: _, [] => false
  | p :: ps, c :: cs => p == c && startsWithL ps cs

/-- Number of positions of `hay` at which `pat` occurs. -/
def countOccs (pat : List Char) : List Char → Nat
  | [] => if pat.isEmpty then 1 else 0
  | c :: rest => (if startsWithL pat (c :: rest) then 1 else 0) + countOccs pat rest

/-- Occurrences of `pat` in `s`. -/
def countSubstr (s pat : String) : Nat := countOccs pat.data s.data

/-- Occurrences of character `c` in `s`. -/
def countChar (c : Char) (s : String) : Nat := s.data.count c

/-! # Theorems

## The string order used by `sorted` -/

theorem strLt_asymm : ∀ as bs : List Char, strLt as bs = true → strLt bs as = false := by
  intro as
  induction as with
  | nil =>
    intro bs h
    cases bs with
    | nil => simp [strLt] at h
    | cons b bs' => rfl
  | cons a as' ih =>
    intro bs h
    cases bs with
    | nil => simp [strLt] at h
    | cons b bs' =>
      simp only [strLt, gt_iff_lt] at h ⊢
      by_cases hab : a < b
      · rw [if_neg (lt_asymm hab), if_pos hab]
      · rw [if_neg hab] at h
        by_cases hba : b < a
        · rw [if_pos hba] at h
          exact Bool.noConfusion h
        · rw [if_neg hba] at h
          rw [if_neg hba, if_neg hab]
          exact ih bs' h

theorem strLt_conn : ∀ as bs : List Char,
    strLt as bs = false → strLt bs as = false → as = bs := by
  intro as
  induction as with
  | nil =>
    intro bs h1 h2
    cases bs with
    | nil => rfl
    | cons b bs' => simp [strLt] at h1
  | cons a as' ih =>
    intro bs h1 h2
    cases bs with
    | nil => simp [strLt] at h2
    | cons b bs' =>
      simp only [strLt, gt_iff_lt] at h1 h2
      by_cases hab : a < b
      · rw [if_pos hab] at h1
        exact Bool.noConfusion h1
      · by_cases hba : b < a
        · rw [if_pos hba] at h2
          exact Bool.noConfusion h2
        · rw [if_neg hab, if_neg hba] at h1
          rw [if_neg hba, if_neg hab] at h2
          have hub : a = b := le_antisymm (le_of_not_lt hba) (le_of_not_lt hab)
          rw [hub, ih bs' h1 h2]

theorem strLe_total (a b : String) : strLe a b = true ∨ strLe b a = true := by
  unfold strLe
  cases h : strLt b.data a.data
  · left; rfl
  · right
    simp [strLt_asymm _ _ h]

theorem strLt_trans_neg : ∀ cs bs as : List Char,
    strLt bs as = false → strLt cs bs = false → strLt cs as = false := by
  intro cs
  induction cs with
  | nil =>
    intro bs as h1 h2
    cases as with
    | nil => rfl
    | cons a as' =>
      cases bs with
      | nil => simp [strLt] at h1
      | cons b bs' => simp [strLt] at h2
  | cons c cs' ih =>
    intro bs as h1 h2
    cases as with
    | nil => rfl
    | cons a as' =>
      cases bs with
      | nil => simp [strLt] at h1
      | cons b bs' =>
        simp only [strLt, gt_iff_lt] at h1 h2 ⊢
        have hba : ¬ b < a := by
          intro h
          rw [if_pos h] at h1
          exact Bool.noConfusion h1
        have hcb : ¬ c < b := by
          intro h
          rw [if_pos h] at h2
          exact Bool.noConfusion h2
        have hca : ¬ c < a := fun h =>
          hcb (lt_of_lt_of_le h (le_of_not_lt hba))
        rw [if_neg hca]
        by_cases hac : a < c
        · rw [if_pos hac]
        · rw [if_neg hac]
          have hab : a ≤ b := le_of_not_lt hba
          have hbc : b ≤ c := le_of_not_lt hcb
          have hca' : c ≤ a := le_of_not_lt hac
          have e1 : a = b := le_antisymm hab (hbc.trans hca')
          have e2 : b = c := le_antisymm hbc (hca'.trans hab)
          rw [if_neg hba, ← e1, if_neg (lt_irrefl a)] at h1
          rw [if_neg hcb, e2, if_neg (lt_irrefl c)] at h2
          exact ih bs' as' h1 h2

theorem strLe_trans {a b c : String} (h1 : strLe a b = true) (h2 : strLe b c = true) :
    strLe a c = true := by
  unfold strLe at h1 h2 ⊢
  simp only [Bool.not_eq_true'] at h1 h2 ⊢
  exact strLt_trans_neg _ _ _ h1 h2

/-! ## Sorting and deduplication of the KB list -/

theorem insertStr_mem {x a : String} {l : List String} :
    x ∈ insertStr a l → x = a ∨ x ∈ l := by
  induction l with
  | nil => simp [insertStr]
  | cons b t ih =>
    simp only [insertStr]
    split
    · intro h
      rcases List.mem_cons.mp h with h | h
      · exact Or.inl h
      · exact Or.inr h
    · intro h
      rcases List.mem_cons.mp h with h | h
      · exact Or.inr (by simp [h])
      · rcases ih h with h | h
        · exact Or.inl h
        · exact Or.inr (List.mem_cons_of_mem _ h)

theorem insertStr_pairwise (a : String) (l : List String)
    (h : l.Pairwise (fun x y => strLe x y = true)) :
    (insertStr a l).Pairwise (fun x y => strLe x y = true) := by
  induction l with
  | nil => simp [insertStr]
  | cons b t ih =>
    rcases List.pairwise_cons.mp h with ⟨hb, ht⟩
    simp only [insertStr]
    split
    next hab =>
      refine List.pairwise_cons.mpr ⟨?_, h⟩
      intro y hy
      rcases List.mem_cons.mp hy with rfl | hy
      · exact hab
      · exact strLe_trans hab (hb y hy)
    next hab =>
      have hba : strLe b a = true := by
        rcases strLe_total a b with h' | h'
        · exact absurd h' hab
        · exact h'
      refine List.pairwise_cons.mpr ⟨?_, ih ht⟩
      intro y hy
      rcases insertStr_mem hy with rfl | hy
      · exact hba
      · exact hb y hy

theorem insertStr_perm (a : String) (l : List String) :
    List.Perm (insertStr a l) (a :: l) := by
  induction l with
  | nil => simp [insertStr]
  | cons b t ih =>
    simp only [insertStr]
    split
    · exact List.Perm.refl _
    · exact List.Perm.trans (List.Perm.cons b ih) (List.Perm.swap a b t)

theorem sortStrs_pairwise (l : List String) :
    (sortStrs l).Pairwise (fun x y => strLe x y = true) := by
  induction l with
  | nil => simp [sortStrs]
  | cons a t ih => exact insertStr_pairwise a (sortStrs t) ih

theorem sortStrs_perm (l : List String) : List.Perm (sortStrs l) l := by
  induction l with
  | nil => exact List.Perm.refl _
  | cons a t ih =>
    exact List.Perm.trans (insertStr_perm a (sortStrs t)) (List.Perm.cons a ih)

theorem dedupStrs_sub {x : String} : ∀ {l : List String}, x ∈ dedupStrs l → x ∈ l := by
  intro l
  induction l with
  | nil => simp [dedupStrs]
  | cons a t ih =>
    simp only [dedupStrs]
    split
    · intro h
      exact List.mem_cons_of_mem _ (ih h)
    · intro h
      rcases List.mem_cons.mp h with rfl | h
      · exact List.mem_cons_self _ _
      · exact List.mem_cons_of_mem _ (ih h)

theorem dedupStrs_nodup : ∀ l : List String, (dedupStrs l).Nodup := by
  intro l
  induction l with
  | nil => simp [dedupStrs]
  | cons a t ih =>
    simp only [dedupStrs]
    split
    · exact ih
    next ha =>
      exact List.nodup_cons.mpr ⟨fun h => ha (dedupStrs_sub h), ih⟩
/-! ## Shape of the KB scanner's matches -/

/-- Invariant carried by the scanner state. -/
def kbStOk : KbState → Prop
  | KbState.base _ => True
  | KbState.sawK k => k = 'K' ∨ k = 'k'
  | KbState.inDigits k b ds =>
    (k = 'K' ∨ k = 'k') ∧ (b = 'B' ∨ b = 'b') ∧ ds.all Char.isDigit = true

/-- Every match the scanner emits is `KB` (any case) followed by at least
one digit. -/
theorem kbGo_shape : ∀ (cs : List Char) (st : KbState), kbStOk st →
    ∀ m ∈ kbGo cs st,
      ∃ k b ds, m = k :: b :: ds ∧ (k = 'K' ∨ k = 'k') ∧ (b = 'B' ∨ b = 'b') ∧
        ds ≠ [] ∧ ds.all Char.isDigit = true := by
  intro cs
  induction cs with
  | nil =>
    intro st hst m hm
    match st with
    | KbState.base _ => simp [kbGo] at hm
    | KbState.sawK _ => simp [kbGo] at hm
    | KbState.inDigits k b ds =>
      simp only [kbGo] at hm
      split at hm
      · simp at hm
      next hne =>
        rcases hst with ⟨hk, hb, hds⟩
        rcases List.mem_singleton.mp hm with rfl
        refine ⟨k, b, ds.reverse, rfl, hk, hb, ?_, ?_⟩
        · have : ds ≠ [] := by simpa [List.isEmpty_iff] using hne
          simpa using this
        · simp only [List.all_eq_true] at hds ⊢
          intro x hx
          exact hds x (List.mem_reverse.mp hx)
  | cons c rest ih =>
    intro st hst m hm
    match st with
    | KbState.base prevWord =>
      simp only [kbGo] at hm
      split at hm
      next hc =>
        have hck : c = 'K' ∨ c = 'k' := by
          have hc' := hc
          simp only [Bool.and_eq_true, Bool.or_eq_true, beq_iff_eq] at hc'
          exact hc'.1
        exact ih (KbState.sawK c) hck m hm
      · exact ih (KbState.base (isWordChar c)) trivial m hm
    | KbState.sawK k =>
      simp only [kbGo] at hm
      split at hm
      next hc =>
        have hcb : c = 'B' ∨ c = 'b' := by
          have hc' := hc
          simp only [Bool.or_eq_true, beq_iff_eq] at hc'
          exact hc'
        exact ih (KbState.inDigits k c []) ⟨hst, hcb, by simp⟩ m hm
      · exact ih (KbState.base (isWordChar c)) trivial m hm
    | KbState.inDigits k b ds =>
      rcases hst with ⟨hk, hb, hds⟩
      simp only [kbGo] at hm
      split at hm
      next hdig =>
        refine ih (KbState.inDigits k b (c :: ds)) ⟨hk, hb, ?_⟩ m hm
        simp only [List.all_cons, Bool.and_eq_true]
        exact ⟨hdig, hds⟩
      · split at hm
        · exact ih (KbState.base (isWordChar c)) trivial m hm
        next hne =>
          split at hm
          · exact ih (KbState.base (isWordChar c)) trivial m hm
          · rcases List.mem_cons.mp hm with rfl | hm'
            · refine ⟨k, b, ds.reverse, rfl, hk, hb, ?_, ?_⟩
              · have : ds ≠ [] := by simpa [List.isEmpty_iff] using hne
                simpa using this
              · simp only [List.all_eq_true] at hds ⊢
                intro x hx
                exact hds x (List.mem_reverse.mp hx)
            · exact ih (KbState.base (isWordChar c)) trivial m hm'

/-- `str.upper` fixes digits (they are outside the `a`-`z` range). -/
theorem charUpper_digit {c : Char} (h : c.isDigit = true) : charUpper c = c := by
  have hle : c.toNat ≤ 57 := by
    simp only [Char.isDigit, Bool.and_eq_true, decide_eq_true_eq] at h
    have := h.2
    exact this
  unfold charUpper Char.toUpper
  have h97 : ¬ (97 ≤ c.toNat) := by omega
  simp [h97]

/-- The code-faithful shape of an `extract_kbs` element: literal
uppercase `KB` followed by one or more digits. -/
def kbShapeOk (s : String) : Bool :=
  match s.data with
  | k :: b :: ds => k == 'K' && b == 'B' && !ds.isEmpty && ds.all Char.isDigit
  | _ => false

/-- Modelled from the spec: an element "matches `^KB\d{6,8}$`
case-insensitively" — `KB` in any case followed by six to eight digits. -/
def specKBPattern68 (s : String) : Bool :=
  match s.data with
  | k :: b :: ds =>
    (k == 'K' || k == 'k') && (b == 'B' || b == 'b') &&
      decide (6 ≤ ds.length) && decide (ds.length ≤ 8) && ds.all Char.isDigit
  | _ => false

/-- C1 (amended): for every input string, `extract_kbs` returns a list
that is sorted in Python's string order, has no duplicates, and whose
every element is uppercase `KB` followed by one or more digits.  The
compiled pattern (line 97) is `\bKB\d+\b` — there is no six-to-eight
bound on the digit count (see `extract_kbs_not_68digit`). -/
theorem extract_kbs_sorted_nodup_shape (s : String) :
    (extract_kbs s).Pairwise (fun a b => strLe a b = true) ∧
    (extract_kbs s).Nodup ∧
    ∀ x ∈ extract_kbs s, kbShapeOk x = true := by
  unfold extract_kbs
  refine ⟨sortStrs_pairwise _, ?_, ?_⟩
  · exact ((sortStrs_perm _).nodup_iff).mpr (dedupStrs_nodup _)
  · intro x hx
    have hx' := dedupStrs_sub ((sortStrs_perm _).mem_iff.mp hx)
    rcases List.mem_map.mp hx' with ⟨m, hm, rfl⟩
    rcases kbGo_shape s.data (KbState.base false) trivial m hm with
      ⟨k, b, ds, rfl, hk, hb, hne, hds⟩
    have hkU : charUpper k = 'K' := by rcases hk with rfl | rfl <;> decide
    have hbU : charUpper b = 'B' := by rcases hb with rfl | rfl <;> decide
    simp only [kbShapeOk, List.map_cons, hkU, hbU]
    have hmapds : (ds.map charUpper).all Char.isDigit = true := by
      simp only [List.all_eq_true] at hds ⊢
      intro y hy
      rcases List.mem_map.mp hy with ⟨z, hz, rfl⟩
      rw [charUpper_digit (hds z hz)]
      exact hds z hz
    have hnemp : (ds.map charUpper).isEmpty = false := by
      cases ds with
      | nil => exact absurd rfl hne
      | cons _ _ => simp
    simp [hmapds, hnemp]

/-- Witness for C1: a concrete element of a concrete output satisfies the
shape predicate. -/
theorem extract_kbs_sorted_nodup_shape_witness : kbShapeOk "KB5044384" = true :=
  (extract_kbs_sorted_nodup_shape "Update for Windows 11 kb5044384").2.2
    "KB5044384" (by decide)

/-- C1 counterexample: the code's pattern is `KB\d+`, not `KB\d{6,8}`:
the one-digit `"KB1"` is returned verbatim, and it does not match the
spec's `^KB\d{6,8}$`. -/
theorem extract_kbs_not_68digit :
    extract_kbs "KB1" = ["KB1"] ∧ specKBPattern68 "KB1" = false := by decide

/-! ## Deduplication (lines 167-175) -/

theorem dedupeGo_not_seen (seen : List (String × String × List String)) :
    ∀ rows : List Row, ∀ r ∈ dedupeGo seen rows, rowKey r ∉ seen := by
  intro rows
  induction rows generalizing seen with
  | nil => simp [dedupeGo]
  | cons x rest ih =>
    intro r hr
    simp only [dedupeGo] at hr
    split at hr
    · exact ih seen r hr
    next hx =>
      rcases List.mem_cons.mp hr with rfl | hr'
      · exact hx
      · intro hmem
        exact ih (rowKey x :: seen) r hr' (List.mem_cons_of_mem _ hmem)

theorem dedupeGo_pairwise (seen : List (String × String × List String)) :
    ∀ rows : List Row,
      (dedupeGo seen rows).Pairwise (fun a b => rowKey a ≠ rowKey b) := by
  intro rows
  induction rows generalizing seen with
  | nil => simp [dedupeGo]
  | cons x rest ih =>
    simp only [dedupeGo]
    split
    · exact ih seen
    · refine List.pairwise_cons.mpr ⟨?_, ih (rowKey x :: seen)⟩
      intro y hy h
      exact dedupeGo_not_seen (rowKey x :: seen) rest y hy (by simp [h])

theorem dedupeGo_mem_iff (seen : List (String × String × List String)) :
    ∀ (rows : List Row) (r : Row),
      r ∈ dedupeGo seen rows ↔
        rowKey r ∉ seen ∧
          ∃ pre post, rows = pre ++ r :: post ∧ ∀ p ∈ pre, rowKey p ≠ rowKey r := by
  intro rows
  induction rows generalizing seen with
  | nil =>
    intro r
    simp [dedupeGo]
  | cons x rest ih =>
    intro r
    simp only [dedupeGo]
    split
    next hx =>
      rw [ih seen r]
      constructor
      · rintro ⟨hseen, pre, post, rfl, hpre⟩
        refine ⟨hseen, x :: pre, post, rfl, ?_⟩
        intro p hp
        rcases List.mem_cons.mp hp with rfl | hp'
        · intro h
          exact hseen (h ▸ hx)
        · exact hpre p hp'
      · rintro ⟨hseen, pre, post, heq, hpre⟩
        cases pre with
        | nil =>
          -- then x = r, but rowKey x ∈ seen and rowKey r ∉ seen
          simp only [List.nil_append, List.cons.injEq] at heq
          exact absurd (heq.1 ▸ hx) hseen
        | cons q pre' =>
          simp only [List.cons_append, List.cons.injEq] at heq
          rcases heq with ⟨rfl, heq'⟩
          exact ⟨hseen, pre', post, heq', fun p hp => hpre p (List.mem_cons_of_mem _ hp)⟩
    next hx =>
      constructor
      · intro hr
        rcases List.mem_cons.mp hr with rfl | hr'
        · exact ⟨hx, [], rest, rfl, by simp⟩
        · rcases (ih (rowKey x :: seen) r).mp hr' with ⟨hseen, pre, post, rfl, hpre⟩
          refine ⟨fun h => hseen (List.mem_cons_of_mem _ h), x :: pre, post, rfl, ?_⟩
          intro p hp
          rcases List.mem_cons.mp hp with rfl | hp'
          · intro h
            exact hseen (h ▸ List.mem_cons_self _ _)
          · exact hpre p hp'
      · rintro ⟨hseen, pre, post, heq, hpre⟩
        cases pre with
        | nil =>
          simp only [List.nil_append, List.cons.injEq] at heq
          rcases heq with ⟨rfl, rfl⟩
          exact List.mem_cons_self _ _
        | cons q pre' =>
          simp only [List.cons_append, List.cons.injEq] at heq
          rcases heq with ⟨hq, heq'⟩
          refine List.mem_cons_of_mem _ ?_
          refine (ih (rowKey x :: seen) r).mpr ⟨?_, pre', post, heq', ?_⟩
          · intro h
            rcases List.mem_cons.mp h with h' | h'
            · exact hpre q (List.mem_cons_self _ _) (hq ▸ h'.symm)
            · exact hseen h'
          · exact fun p hp => hpre p (List.mem_cons_of_mem _ hp)

theorem dedupe_sub {r : Row} : ∀ {rows : List Row}, r ∈ dedupe rows → r ∈ rows := by
  intro rows hr
  rcases (dedupeGo_mem_iff [] rows r).mp hr with ⟨-, pre, post, rfl, -⟩
  simp

/-! ## The stable descending sort (line 178) -/

theorem insertRow_mem {x a : Row} {l : List Row} :
    x ∈ insertRow a l → x = a ∨ x ∈ l := by
  induction l with
  | nil => simp [insertRow]
  | cons b t ih =>
    simp only [insertRow]
    split
    · intro h
      rcases List.mem_cons.mp h with h | h
      · exact Or.inl h
      · exact Or.inr h
    · intro h
      rcases List.mem_cons.mp h with h | h
      · exact Or.inr (by simp [h])
      · rcases ih h with h | h
        · exact Or.inl h
        · exact Or.inr (List.mem_cons_of_mem _ h)

theorem insertRow_perm (a : Row) (l : List Row) :
    List.Perm (insertRow a l) (a :: l) := by
  induction l with
  | nil => simp [insertRow]
  | cons b t ih =>
    simp only [insertRow]
    split
    · exact List.Perm.refl _
    · exact List.Perm.trans (List.Perm.cons b ih) (List.Perm.swap a b t)

theorem sortRows_perm (l : List Row) : List.Perm (sortRows l) l := by
  induction l with
  | nil => exact List.Perm.refl _
  | cons a t ih =>
    exact List.Perm.trans (insertRow_perm a (sortRows t)) (List.Perm.cons a ih)

theorem insertRow_pairwise (a : Row) (l : List Row)
    (h : l.Pairwise (fun x y => y.date ≤ x.date)) :
    (insertRow a l).Pairwise (fun x y => y.date ≤ x.date) := by
  induction l with
  | nil => simp [insertRow]
  | cons b t ih =>
    rcases List.pairwise_cons.mp h with ⟨hb, ht⟩
    simp only [insertRow]
    split
    next hab =>
      refine List.pairwise_cons.mpr ⟨?_, h⟩
      intro y hy
      rcases List.mem_cons.mp hy with rfl | hy
      · exact hab
      · exact le_trans (hb y hy) hab
    next hab =>
      have hba : a.date ≤ b.date := le_of_not_le hab
      refine List.pairwise_cons.mpr ⟨?_, ih ht⟩
      intro y hy
      rcases insertRow_mem hy with rfl | hy
      · exact hba
      · exact hb y hy

theorem sortRows_pairwise (l : List Row) :
    (sortRows l).Pairwise (fun x y => y.date ≤ x.date) := by
  induction l with
  | nil => simp [sortRows]
  | cons a t ih => exact insertRow_pairwise a (sortRows t) ih

/-- Stability, head case: an element is inserted in front of every
element with the same date. -/
theorem insertRow_filter_eq (a : Row) (l : List Row) (d : Int) (h : a.date = d) :
    (insertRow a l).filter (fun r => decide (r.date = d)) =
      a :: l.filter (fun r => decide (r.date = d)) := by
  induction l with
  | nil => simp [insertRow, h]
  | cons b t ih =>
    simp only [insertRow]
    split
    next hba => simp [List.filter, h]
    next hba =>
      have hbd : ¬ (b.date = d) := by
        intro hb
        exact hba (le_of_eq (hb.trans h.symm))
      simp only [List.filter_cons]
      simp only [decide_eq_true_eq]
      rw [if_neg hbd, if_neg hbd, ih]

theorem insertRow_filter_ne (a : Row) (l : List Row) (d : Int) (h : ¬ a.date = d) :
    (insertRow a l).filter (fun r => decide (r.date = d)) =
      l.filter (fun r => decide (r.date = d)) := by
  induction l with
  | nil => simp [insertRow, h]
  | cons b t ih =>
    simp only [insertRow]
    split
    · simp only [List.filter_cons, decide_eq_true_eq]
      rw [if_neg h]
    · simp only [List.filter_cons, decide_eq_true_eq]
      by_cases hbd : b.date = d
      · rw [if_pos hbd, if_pos hbd, ih]
      · rw [if_neg hbd, if_neg hbd, ih]

/-- The sort is stable: the elements with any fixed date keep their
pre-sort relative order. -/
theorem sortRows_filter (l : List Row) (d : Int) :
    (sortRows l).filter (fun r => decide (r.date = d)) =
      l.filter (fun r => decide (r.date = d)) := by
  induction l with
  | nil => rfl
  | cons a t ih =>
    by_cases h : a.date = d
    · rw [show sortRows (a :: t) = insertRow a (sortRows t) from rfl,
        insertRow_filter_eq a (sortRows t) d h, ih]
      simp [List.filter_cons, h]
    · rw [show sortRows (a :: t) = insertRow a (sortRows t) from rfl,
        insertRow_filter_ne a (sortRows t) d h, ih]
      simp [List.filter_cons, h]

/-! ## Claims C2 and C3 -/

/-- C2 (amended): no two records in `collect_updates`' output share the
dedup key the code actually uses — `(product, description, kbs)`, line
171 — and the first-seen record for a key wins: a row is in `dedupe rows`
exactly when it occurs in `rows` with no earlier row of the same key.
(The claim's key `(product, kbIds, title, date)` is not the code's: the
date is not part of the key, and the key contains the derived description
rather than the title — see `collect_updates_claimkey_not_unique`.) -/
theorem collect_updates_key_unique_first_wins :
    (∀ (now : Int) (fetched : List (Feed × FetchOutcome)),
      (collect_updates now fetched).Pairwise (fun a b => rowKey a ≠ rowKey b)) ∧
    (∀ (rows : List Row) (r : Row),
      r ∈ dedupe rows ↔
        ∃ pre post, rows = pre ++ r :: post ∧ ∀ p ∈ pre, rowKey p ≠ rowKey r) := by
  constructor
  · intro now fetched
    exact ((sortRows_perm _).pairwise_iff
      (fun {a b} h e => h e.symm)).mpr (dedupeGo_pairwise [] _)
  · intro rows r
    rw [dedupe, dedupeGo_mem_iff [] rows r]
    simp

/-- Test item: empty title, so the description falls back to the
tag-stripped feed description. -/
def itemAlpha : Item :=
  ⟨"", "http://a", "Tue, 04 Nov 2025 00:00:00 GMT", "<p>KB123456 alpha</p>"⟩

/-- Like `itemAlpha` with a different description body and source link. -/
def itemBeta : Item :=
  ⟨"", "http://b", "Tue, 04 Nov 2025 00:00:00 GMT", "<p>KB123456 beta</p>"⟩

/-- The first configured feed. -/
def w11Feed : Feed := FEEDS.getD 0 ⟨"", "", ""⟩

/-- The second configured feed. -/
def w10Feed : Feed := FEEDS.getD 1 ⟨"", "", ""⟩

/-- C2 counterexample: `itemAlpha`/`itemBeta` agree on product, extracted
KB ids, title and parsed date and differ in source link, yet both survive
aggregation (their derived descriptions differ, and the code's key —
which ignores the date and uses the description, not the title — keeps
them distinct).  The output has two records sharing the claim's
`(product, kbIds, title, date)` key, and the claimed collapse does not
happen. -/
theorem collect_updates_claimkey_not_unique :
    (itemAlpha.title = itemBeta.title ∧
     extract_kbs (itemAlpha.title ++ " " ++ itemAlpha.description) =
       extract_kbs (itemBeta.title ++ " " ++ itemBeta.description) ∧
     try_parse_date_rss itemAlpha.pubDate = try_parse_date_rss itemBeta.pubDate ∧
     itemAlpha.link ≠ itemBeta.link) ∧
    (collect_updates 1762214400
      [(w11Feed, FetchOutcome.parsed [itemAlpha, itemBeta])]).length = 2 := by
  decide

/-- C3 (amended): the aggregated output is sorted non-increasing by
`releaseDate`; records with equal dates keep their pre-sort (first-seen)
order — `list.sort` is stable — rather than being ordered by product and
kbIds.  The output is still deterministic in the input order. -/
theorem collect_updates_sorted_stable (now : Int)
    (fetched : List (Feed × FetchOutcome)) :
    (collect_updates now fetched).Pairwise (fun a b => b.date ≤ a.date) ∧
    ∀ d : Int,
      (collect_updates now fetched).filter (fun r => decide (r.date = d)) =
        (dedupedRows (now - DAYS_BACK * 86400) fetched).filter
          (fun r => decide (r.date = d)) := by
  exact ⟨sortRows_pairwise _, fun d => sortRows_filter _ d⟩

/-- A Windows 11 item for the C3 counterexample. -/
def itemTieA : Item :=
  ⟨"Update A KB111111", "http://a", "Tue, 04 Nov 2025 00:00:00 GMT", "d"⟩

/-- A Windows 10 item with the same `pubDate`. -/
def itemTieB : Item :=
  ⟨"Update B KB222222", "http://b", "Tue, 04 Nov 2025 00:00:00 GMT", "d"⟩

/-- C3 counterexample: two records tie on `releaseDate`; the output keeps
the feed order (`Windows 11` before `Windows 10`), although `"Windows
10" < "Windows 11"` lexicographically — the tie is not broken by
`product`/`kbIds`. -/
theorem collect_updates_tie_not_by_product :
    ((collect_updates 1762214400
        [(w11Feed, FetchOutcome.parsed [itemTieA]),
         (w10Feed, FetchOutcome.parsed [itemTieB])]).map (fun r => r.product) =
      ["Windows 11", "Windows 10"] ∧
     (collect_updates 1762214400
        [(w11Feed, FetchOutcome.parsed [itemTieA]),
         (w10Feed, FetchOutcome.parsed [itemTieB])]).map (fun r => r.date) =
      [1762214400, 1762214400]) ∧
    strLt "Windows 10".data "Windows 11".data = true := by
  decide

/-! ## Claims C4 and C5 -/

/-- Unpack membership in one source's row list (lines 141-165). -/
theorem rowsOfSource_mem {cutoff : Int} {p : Feed × FetchOutcome} {r : Row}
    (h : r ∈ rowsOfSource cutoff p) :
    ¬ r.date < cutoff ∧ ∃ it ∈ itemsOf p.2, r = rowOfItem p.1 it := by
  rcases List.mem_filterMap.mp h with ⟨it, hit, hsome⟩
  dsimp only at hsome
  split at hsome
  · exact absurd hsome (by simp)
  next hlt =>
    have hr : r = rowOfItem p.1 it := (Option.some.inj hsome).symm
    subst hr
    exact ⟨hlt, it, hit, rfl⟩

/-- Every row of the pre-sort stage respects the cutoff. -/
theorem dedupedRows_cutoff {cutoff : Int} {fetched : List (Feed × FetchOutcome)}
    {r : Row} (h : r ∈ dedupedRows cutoff fetched) : ¬ r.date < cutoff := by
  have hr := dedupe_sub h
  rcases List.mem_flatten.mp hr with ⟨rows, hrows, hrin⟩
  rcases List.mem_map.mp hrows with ⟨p, _, rfl⟩
  exact (rowsOfSource_mem hrin).1

/-- C4: every record in the aggregated output satisfies
`releaseDate ≥ cutoff`, the cutoff being the run instant minus the
configured 30-day lookback (`DAYS_BACK = 30`; `timedelta(days=30)` is
`30 * 86400` seconds); candidates dated strictly before the cutoff are
filtered out at line 146 and never enter the output. -/
theorem collect_updates_cutoff (now : Int) (fetched : List (Feed × FetchOutcome))
    (r : Row) (h : r ∈ collect_updates now fetched) :
    now - DAYS_BACK * 86400 ≤ r.date := by
  have h' : r ∈ dedupedRows (now - DAYS_BACK * 86400) fetched :=
    (sortRows_perm _).mem_iff.mp h
  exact le_of_not_lt (dedupedRows_cutoff h')

/-- Witness for C4 at a concrete run. -/
theorem collect_updates_cutoff_witness :
    (1762214400 : Int) - DAYS_BACK * 86400 ≤ (rowOfItem w11Feed itemTieA).date :=
  collect_updates_cutoff 1762214400 [(w11Feed, FetchOutcome.parsed [itemTieA])]
    (rowOfItem w11Feed itemTieA) (by decide)

/-- C5 (amended): a candidate whose raw date string fails every format
does not crash the run — `try_parse_date_rss` substitutes the Unix-epoch
sentinel (line 120) — but the record is then *dropped* by the recency
filter whenever the cutoff is after the epoch (which holds for every run
instant after 1970-01-31): it does not appear at the end of the output.
The code's own comment says so: "If unknown, return epoch so it likely
filters out". -/
theorem try_parse_epoch_fallback_filtered :
    (∀ s : String, parseAnyRssDate s = none → try_parse_date_rss s = 0) ∧
    (∀ (now : Int) (fetched : List (Feed × FetchOutcome)) (f : Feed) (it : Item),
      0 < now - DAYS_BACK * 86400 → parseAnyRssDate it.pubDate = none →
      rowOfItem f it ∉ collect_updates now fetched) := by
  constructor
  · intro s h
    unfold try_parse_date_rss
    rw [h]
  · intro now fetched f it hpos hnone hmem
    have hdate : (rowOfItem f it).date = 0 := by
      show try_parse_date_rss it.pubDate = 0
      unfold try_parse_date_rss
      rw [hnone]
    have := collect_updates_cutoff now fetched _ hmem
    rw [hdate] at this
    omega

/-- Witness for C5's amended statement at a concrete unparseable date. -/
theorem try_parse_epoch_fallback_filtered_witness :
    try_parse_date_rss "not a date" = 0 ∧
    rowOfItem w11Feed (Item.mk "t" "l" "not a date" "d") ∉
      collect_updates 1762214400 [(w11Feed, FetchOutcome.parsed [itemTieA])] :=
  ⟨try_parse_epoch_fallback_filtered.1 "not a date" (by decide),
   try_parse_epoch_fallback_filtered.2 1762214400
     [(w11Feed, FetchOutcome.parsed [itemTieA])] w11Feed
     (Item.mk "t" "l" "not a date" "d") (by decide) (by decide)⟩

/-- An item whose `pubDate` fails all four formats. -/
def itemBadDate : Item := ⟨"Update C KB333333", "http://c", "not a date", "d"⟩

/-- C5 counterexample: the unparseable-date record receives the epoch
sentinel without crashing, but the output then *omits* it entirely (the
claim says it is kept and sorts to the end). -/
theorem collect_updates_drops_unparseable :
    try_parse_date_rss itemBadDate.pubDate = 0 ∧
    collect_updates 1762214400 [(w11Feed, FetchOutcome.parsed [itemBadDate])] = [] := by
  decide

/-! ## Claim C6 — idempotence of the aggregation step -/

/-- The per-item recency test is a filter over the constructed rows (the
loop fuses it before row construction; the row's `date` field is exactly
the tested `dt`). -/
theorem rowsOfSource_eq_filter (cutoff : Int) (p : Feed × FetchOutcome) :
    rowsOfSource cutoff p =
      ((itemsOf p.2).map (rowOfItem p.1)).filter (fun r => !(r.date < cutoff)) := by
  unfold rowsOfSource
  induction itemsOf p.2 with
  | nil => rfl
  | cons it its ih =>
    simp only [List.filterMap_cons, List.map_cons, List.filter_cons]
    have hdate : (rowOfItem p.1 it).date = try_parse_date_rss it.pubDate := rfl
    by_cases h : try_parse_date_rss it.pubDate < cutoff
    · simp [h, hdate, ih]
    · simp [h, hdate, ih]

theorem filter_flatten_swap (pred : Row → Bool) :
    ∀ L : List (List Row),
      (L.map (List.filter pred)).flatten = L.flatten.filter pred := by
  intro L
  induction L with
  | nil => rfl
  | cons l ls ih =>
    simp only [List.map_cons, List.flatten_cons, List.filter_append, ih]

/-- `dedupe` is the identity on a list whose keys are pairwise distinct. -/
theorem dedupeGo_eq_self (seen : List (String × String × List String)) :
    ∀ l : List Row, l.Pairwise (fun a b => rowKey a ≠ rowKey b) →
      (∀ r ∈ l, rowKey r ∉ seen) → dedupeGo seen l = l := by
  intro l
  induction l generalizing seen with
  | nil => intro _ _; rfl
  | cons x rest ih =>
    intro hpw hseen
    rcases List.pairwise_cons.mp hpw with ⟨hx, hrest⟩
    simp only [dedupeGo]
    rw [if_neg (hseen x (List.mem_cons_self _ _))]
    rw [ih (rowKey x :: seen) hrest]
    intro r hr
    intro hmem
    rcases List.mem_cons.mp hmem with h | h
    · exact hx r hr h.symm
    · exact hseen r (List.mem_cons_of_mem _ hr) h

/-- The stable sort is the identity on a list already sorted descending
by date. -/
theorem sortRows_eq_self (l : List Row)
    (h : l.Pairwise (fun a b => b.date ≤ a.date)) : sortRows l = l := by
  induction l with
  | nil => rfl
  | cons a t ih =>
    rcases List.pairwise_cons.mp h with ⟨ha, ht⟩
    show insertRow a (sortRows t) = a :: t
    rw [ih ht]
    cases t with
    | nil => rfl
    | cons b t' =>
      show (if b.date ≤ a.date then a :: b :: t' else b :: insertRow a t') = a :: b :: t'
      rw [if_pos (ha b (List.mem_cons_self _ _))]

/-- C6: the aggregation step (filter by cutoff, deduplicate, sort) is
idempotent — applied to its own output with the same cutoff it returns
that output unchanged — and `collect_updates` is exactly this step
applied to the candidate rows of all sources. -/
theorem aggregate_idem :
    (∀ (cutoff : Int) (rows : List Row),
      aggregate cutoff (aggregate cutoff rows) = aggregate cutoff rows) ∧
    (∀ (now : Int) (fetched : List (Feed × FetchOutcome)),
      collect_updates now fetched =
        aggregate (now - DAYS_BACK * 86400)
          ((fetched.map (fun p => (itemsOf p.2).map (rowOfItem p.1))).flatten)) := by
  constructor
  · intro cutoff rows
    set pred := fun r : Row => !(r.date < cutoff) with hpred
    have hall : ∀ r ∈ aggregate cutoff rows, pred r = true := by
      intro r hr
      have h1 : r ∈ dedupe (rows.filter pred) := (sortRows_perm _).mem_iff.mp hr
      have h2 : r ∈ rows.filter pred := dedupe_sub h1
      exact List.of_mem_filter h2
    have hpw : (aggregate cutoff rows).Pairwise (fun a b => rowKey a ≠ rowKey b) :=
      ((sortRows_perm _).pairwise_iff (fun {a b} h e => h e.symm)).mpr
        (dedupeGo_pairwise [] _)
    have hsorted : (aggregate cutoff rows).Pairwise (fun a b => b.date ≤ a.date) :=
      sortRows_pairwise _
    show sortRows (dedupe ((aggregate cutoff rows).filter pred)) = aggregate cutoff rows
    rw [List.filter_eq_self.mpr hall]
    rw [show dedupe (aggregate cutoff rows) = aggregate cutoff rows from
      dedupeGo_eq_self [] _ hpw (by simp)]
    exact sortRows_eq_self _ hsorted
  · intro now fetched
    show sortRows (dedupedRows (now - DAYS_BACK * 86400) fetched) = _
    unfold dedupedRows aggregate
    congr 1
    unfold dedupe
    congr 1
    rw [← filter_flatten_swap]
    congr 1
    simp only [List.map_map]
    exact List.map_congr_left fun p _ => rowsOfSource_eq_filter _ p

/-! ## Claims C7 and C9 -/

/-- C7: given an empty record list the renderer's `<tbody>` payload is
exactly the "no updates" placeholder row: there are zero data rows, the
body is not empty, and it holds exactly one table row (one `<tr>`
opening).  Rows appear in the document only through this payload — the
rest of `render_html` is the fixed page template (whose sole other `<tr>`
is the `<thead>` header row). -/
theorem render_html_empty_placeholder :
    tbodyContent [] = noUpdatesRow ∧
    body_rows [] = [] ∧
    countSubstr (tbodyContent []) "<tr>" = 1 ∧
    tbodyContent [] ≠ "" := by
  refine ⟨rfl, rfl, by decide, by decide⟩

/-- C9: a source whose fetch exhausted its retries, or whose feed bytes
were malformed XML, contributes zero records and leaves the records of
every other source untouched: the run's output is the same as if the
source were absent.  (Both failure modes are caught — lines 134-139 and
77-80 — so neither raises out of the per-source loop; the embedding is a
total function of the outcomes.) -/
theorem failed_source_harmless :
    (∀ (now : Int) (pre post : List (Feed × FetchOutcome)) (f : Feed),
      collect_updates now (pre ++ (f, FetchOutcome.fetchFailed) :: post) =
        collect_updates now (pre ++ post)) ∧
    (∀ (now : Int) (pre post : List (Feed × FetchOutcome)) (f : Feed),
      collect_updates now (pre ++ (f, FetchOutcome.malformedXml) :: post) =
        collect_updates now (pre ++ post)) := by
  constructor <;>
    · intro now pre post f
      simp [collect_updates, dedupedRows, rowsOfSource, itemsOf]

/-! ## Claim C8 — the description field -/

/-- Head character (if any) is not whitespace. -/
def headOk : List Char → Bool
  | [] => true
  | c :: _ => !isPyWs c

/-- Last character (if any) is not whitespace. -/
def lastOk : List Char → Bool
  | [] => true
  | [c] => !isPyWs c
  | _ :: rest => lastOk rest

/-- No two adjacent whitespace characters. -/
def noTwoWs : List Char → Bool
  | a :: b :: t => !(isPyWs a && isPyWs b) && noTwoWs (b :: t)
  | _ => true

/-- Fully normalised text: trimmed, runs collapsed, every whitespace
character a plain space. -/
def collapsedOk (cs : List Char) : Bool :=
  headOk cs && lastOk cs && noTwoWs cs && cs.all (fun c => !isPyWs c || c == ' ')

theorem noTwoWs_tail {c : Char} {l : List Char} (h : noTwoWs (c :: l) = true) :
    noTwoWs l = true := by
  cases l with
  | nil => rfl
  | cons b t =>
    simp only [noTwoWs, Bool.and_eq_true] at h
    exact h.2

theorem noTwoWs_cons {c : Char} {l : List Char} (h1 : noTwoWs l = true)
    (h2 : isPyWs c = false ∨ headOk l = true) : noTwoWs (c :: l) = true := by
  cases l with
  | nil => rfl
  | cons b t =>
    simp only [noTwoWs, Bool.and_eq_true]
    refine ⟨?_, h1⟩
    rcases h2 with h | h
    · simp [h]
    · simp only [headOk, Bool.not_eq_true'] at h
      simp [h]

theorem squeezeGo_headOk (cs : List Char) :
    headOk (squeezeGo cs true) = true := by
  induction cs with
  | nil => rfl
  | cons c rest ih =>
    simp only [squeezeGo]
    cases hc : isPyWs c with
    | true => simpa [hc] using ih
    | false => simp [headOk, hc]

theorem squeezeGo_noTwoWs (cs : List Char) :
    ∀ b, noTwoWs (squeezeGo cs b) = true := by
  induction cs with
  | nil => intro b; rfl
  | cons c rest ih =>
    intro b
    simp only [squeezeGo]
    cases hc : isPyWs c with
    | true =>
      cases b with
      | true => simpa [hc] using ih true
      | false =>
        have := noTwoWs_cons (c := ' ') (ih true) (Or.inr (squeezeGo_headOk rest))
        simpa [hc] using this
    | false =>
      have := noTwoWs_cons (c := c) (ih false) (Or.inl hc)
      simpa [hc] using this

theorem squeezeGo_allSpace (cs : List Char) :
    ∀ b, (squeezeGo cs b).all (fun c => !isPyWs c || c == ' ') = true := by
  induction cs with
  | nil => intro b; rfl
  | cons c rest ih =>
    intro b
    simp only [squeezeGo]
    cases hc : isPyWs c with
    | true =>
      cases b with
      | true => simpa [hc] using ih true
      | false =>
        simp [hc, List.all_cons, ih true]
    | false =>
      simp [hc, List.all_cons, ih false]

/-- `dropTrailingWs` returns a prefix of its input. -/
theorem dropTrailingWs_prefix (l : List Char) :
    ∃ s, l = dropTrailingWs l ++ s := by
  induction l with
  | nil => exact ⟨[], rfl⟩
  | cons c rest ih =>
    rcases ih with ⟨s, hs⟩
    simp only [dropTrailingWs]
    by_cases h : ((dropTrailingWs rest).isEmpty && isPyWs c) = true
    · rw [if_pos h]
      exact ⟨c :: rest, rfl⟩
    · rw [if_neg h]
      exact ⟨s, by rw [List.cons_append, ← hs]⟩

theorem noTwoWs_append_left : ∀ {x y : List Char},
    noTwoWs (x ++ y) = true → noTwoWs x = true := by
  intro x
  induction x with
  | nil => intro y _; rfl
  | cons a t ih =>
    intro y h
    cases t with
    | nil => rfl
    | cons b t' =>
      simp only [List.cons_append, noTwoWs, Bool.and_eq_true] at h ⊢
      refine ⟨h.1, ?_⟩
      have := ih (y := y) (by simpa using h.2)
      simpa using this

theorem all_append_left {p : Char → Bool} {x y : List Char}
    (h : (x ++ y).all p = true) : x.all p = true := by
  simp only [List.all_append, Bool.and_eq_true] at h
  exact h.1

theorem headOk_dropTrailingWs {l : List Char} (h : headOk l = true) :
    headOk (dropTrailingWs l) = true := by
  cases l with
  | nil => rfl
  | cons c rest =>
    simp only [dropTrailingWs]
    split
    · rfl
    · simpa [headOk] using h

theorem lastOk_dropTrailingWs (l : List Char) :
    lastOk (dropTrailingWs l) = true := by
  induction l with
  | nil => rfl
  | cons c rest ih =>
    simp only [dropTrailingWs]
    by_cases h : ((dropTrailingWs rest).isEmpty && isPyWs c) = true
    · rw [if_pos h]
      rfl
    · rw [if_neg h]
      rcases hr : dropTrailingWs rest with _ | ⟨d, t⟩
      · have hc : isPyWs c = false := by
          cases hcc : isPyWs c
          · rfl
          · exact absurd (by rw [hr]; simp [hcc]) h
        simp [hr, lastOk, hc]
      · rw [hr] at ih
        simpa [hr, lastOk] using ih

theorem headOk_dropWhile (l : List Char) :
    headOk (l.dropWhile isPyWs) = true := by
  induction l with
  | nil => rfl
  | cons c rest ih =>
    rw [List.dropWhile]
    cases hc : isPyWs c with
    | true => simpa [hc] using ih
    | false => simp [headOk, hc]

theorem noTwoWs_dropWhile {l : List Char} (h : noTwoWs l = true) :
    noTwoWs (l.dropWhile isPyWs) = true := by
  induction l with
  | nil => rfl
  | cons c rest ih =>
    rw [List.dropWhile]
    cases hc : isPyWs c with
    | true =>
      simp only [hc]
      exact ih (noTwoWs_tail h)
    | false =>
      simpa [hc] using h

theorem all_dropWhile {q : Char → Bool} {l : List Char} (h : l.all q = true) :
    (l.dropWhile isPyWs).all q = true := by
  induction l with
  | nil => rfl
  | cons c rest ih =>
    rw [List.dropWhile]
    simp only [List.all_cons, Bool.and_eq_true] at h
    cases hc : isPyWs c with
    | true =>
      simp only [hc]
      exact ih h.2
    | false =>
      simp [hc, List.all_cons, h.1, h.2]

/-- The composed normaliser's output is fully collapsed. -/
theorem collapseWs_ok (cs : List Char) : collapsedOk (collapseWs cs) = true := by
  unfold collapseWs stripEnds collapsedOk
  set sq := squeezeWs cs with hsq
  set dw := sq.dropWhile isPyWs with hdw
  have hsq_two : noTwoWs sq = true := squeezeGo_noTwoWs cs false
  have hsq_all : sq.all (fun c => !isPyWs c || c == ' ') = true := squeezeGo_allSpace cs false
  have hdw_two : noTwoWs dw = true := noTwoWs_dropWhile hsq_two
  have hdw_all : dw.all (fun c => !isPyWs c || c == ' ') = true := all_dropWhile hsq_all
  rcases dropTrailingWs_prefix dw with ⟨s, hs⟩
  have h1 : headOk (dropTrailingWs dw) = true :=
    headOk_dropTrailingWs (headOk_dropWhile sq)
  have h2 : lastOk (dropTrailingWs dw) = true := lastOk_dropTrailingWs dw
  have h3 : noTwoWs (dropTrailingWs dw) = true :=
    noTwoWs_append_left (hs ▸ hdw_two)
  have h4 : (dropTrailingWs dw).all (fun c => !isPyWs c || c == ' ') = true :=
    all_append_left (hs ▸ hdw_all)
  simp [h1, h2, h3, h4]

/-- Every output row was built by `rowOfItem` from an item of one of the
fetched sources. -/
theorem collect_updates_origin {now : Int} {fetched : List (Feed × FetchOutcome)}
    {r : Row} (h : r ∈ collect_updates now fetched) :
    ∃ p ∈ fetched, ∃ it ∈ itemsOf p.2, r = rowOfItem p.1 it := by
  have h1 := dedupe_sub ((sortRows_perm _).mem_iff.mp h)
  rcases List.mem_flatten.mp h1 with ⟨rows, hrows, hrin⟩
  rcases List.mem_map.mp hrows with ⟨p, hp, rfl⟩
  rcases (rowsOfSource_mem hrin).2 with ⟨it, hit, rfl⟩
  exact ⟨p, hp, it, hit, rfl⟩

/-- C8 (amended): a record's description is the item's *raw title*
whenever the title is nonempty (lines 150-151 — no tag stripping, no
whitespace collapsing there); only when the title is empty (and the feed
description nonempty) does the code fall back to the tag-stripped
description, and that fallback alone is fully normalised: trimmed, no two
adjacent whitespace characters, every whitespace character a single
space. -/
theorem collect_updates_description_norm :
    ∀ (now : Int) (fetched : List (Feed × FetchOutcome)) (r : Row),
      r ∈ collect_updates now fetched →
      (∃ p ∈ fetched, ∃ it ∈ itemsOf p.2, r.description = it.title) ∨
      collapsedOk r.description.data = true := by
  intro now fetched r h
  rcases collect_updates_origin h with ⟨p, hp, it, hit, rfl⟩
  have hdesc : (rowOfItem p.1 it).description = clean_desc it.title it.description := rfl
  rw [hdesc]
  unfold clean_desc
  split
  · exact Or.inr (collapseWs_ok _)
  · exact Or.inl ⟨p, hp, it, hit, rfl⟩

/-- Witness for C8's amended statement at a concrete run. -/
theorem collect_updates_description_norm_witness :
    (∃ p ∈ [(w11Feed, FetchOutcome.parsed [itemTieA])], ∃ it ∈ itemsOf p.2,
      (rowOfItem w11Feed itemTieA).description = it.title) ∨
    collapsedOk (rowOfItem w11Feed itemTieA).description.data = true :=
  collect_updates_description_norm 1762214400
    [(w11Feed, FetchOutcome.parsed [itemTieA])]
    (rowOfItem w11Feed itemTieA) (by decide)

/-- An item whose (nonempty) title contains markup and a double space. -/
def itemTagTitle : Item :=
  ⟨"<b>Hi</b>  x", "http://d", "Tue, 04 Nov 2025 00:00:00 GMT", "y"⟩

/-- C8 counterexample: the output record's description keeps the title's
HTML tag and double space verbatim — tags are not removed and whitespace
is not collapsed on the title path. -/
theorem collect_updates_description_not_stripped :
    ((collect_updates 1762214400
        [(w11Feed, FetchOutcome.parsed [itemTagTitle])]).map
      (fun r => r.description)) = ["<b>Hi</b>  x"] ∧
    countSubstr "<b>Hi</b>  x" "<b>" = 1 ∧
    collapsedOk ("<b>Hi</b>  x").data = false := by
  decide

/-! ## Claim C10 — escaping of record-derived strings -/

theorem countChar_append (c : Char) (a b : String) :
    countChar c (a ++ b) = countChar c a + countChar c b := by
  simp [countChar, String.data_append, List.count_append]

/-- No escape replacement contains `<`, `>` or `"`. -/
theorem escChar_count_markup (c x : Char) (hx : x = '<' ∨ x = '>' ∨ x = '"') :
    (escChar c).count x = 0 := by
  unfold escChar
  split_ifs with h1 h2 h3 h4 h5
  · rcases hx with rfl | rfl | rfl <;> decide
  · rcases hx with rfl | rfl | rfl <;> decide
  · rcases hx with rfl | rfl | rfl <;> decide
  · rcases hx with rfl | rfl | rfl <;> decide
  · rcases hx with rfl | rfl | rfl <;> decide
  · rcases hx with rfl | rfl | rfl
    · simp [List.count_cons, h2]
    · simp [List.count_cons, h3]
    · simp [List.count_cons, h4]

theorem flatMap_escChar_count (x : Char) (hx : x = '<' ∨ x = '>' ∨ x = '"') :
    ∀ l : List Char, (l.flatMap escChar).count x = 0 := by
  intro l
  induction l with
  | nil => rfl
  | cons c t ih =>
    rw [List.flatMap_cons, List.count_append, escChar_count_markup c x hx, ih]

/-- `html_escape` output never contains `<`, `>` or `"` — escaped record
content cannot open a tag, close one, or break out of a quoted
attribute. -/
theorem html_escape_no_markup (s : String) (x : Char)
    (hx : x = '<' ∨ x = '>' ∨ x = '"') : countChar x (html_escape s) = 0 :=
  flatMap_escChar_count x hx s.data

theorem digitChar_ne_lt (k : Nat) : digitChar k ≠ '<' := by
  unfold digitChar
  split <;> decide

theorem pad2_count_lt (n : Nat) : countChar '<' (pad2 n) = 0 := by
  simp [pad2, countChar, List.count_cons, digitChar_ne_lt]

theorem pad4_count_lt (n : Nat) : countChar '<' (pad4 n) = 0 := by
  simp [pad4, countChar, List.count_cons, digitChar_ne_lt]

theorem getD_all {α : Type} (P : α → Prop) (d : α) :
    ∀ (l : List α), (∀ y ∈ l, P y) → P d → ∀ n, P (l.getD n d) := by
  intro l
  induction l with
  | nil => intro _ hd n; exact hd
  | cons a t ih =>
    intro hl hd n
    cases n with
    | zero => exact hl a (List.mem_cons_self _ _)
    | succ n' =>
      exact ih (fun y hy => hl y (List.mem_cons_of_mem _ hy)) hd n'

theorem monthAbbr_count_lt (m : Nat) : countChar '<' (monthAbbrCap m) = 0 := by
  unfold monthAbbrCap
  refine getD_all (fun s => countChar '<' s = 0) "" monthNamesCap ?_ (by decide) (m - 1)
  decide

theorem fmtDate_count_lt (t : Int) : countChar '<' (fmt_date t) = 0 := by
  unfold fmt_date
  have hsp : countChar '<' " " = 0 := by decide
  have hco : countChar '<' ", " = 0 := by decide
  simp [countChar_append, monthAbbr_count_lt, pad2_count_lt, pad4_count_lt, hsp, hco]

theorem kbSpan_count_lt (k : String) : countChar '<' (kbSpan k) = 2 := by
  unfold kbSpan
  have h1 : countChar '<' "<span class=\"kb\">" = 1 := by decide
  have h2 : countChar '<' "</span>" = 1 := by decide
  simp [countChar_append, h1, h2, html_escape_no_markup k '<' (Or.inl rfl)]

theorem kbHtml_count_lt : ∀ kbs : List String,
    countChar '<' (kbHtml kbs) = 2 * kbs.length := by
  intro kbs
  induction kbs with
  | nil => rfl
  | cons k ks ih =>
    cases ks with
    | nil =>
      show countChar '<' (kbSpan k) = 2 * 1
      rw [kbSpan_count_lt]
    | cons y ys =>
      show countChar '<' (kbSpan k ++ " " ++ kbHtml (y :: ys)) = _
      have hsp : countChar '<' " " = 0 := by decide
      rw [countChar_append, countChar_append, kbSpan_count_lt, hsp, ih]
      simp [List.length_cons]
      ring

theorem kbHtml_ne_empty (k : String) (ks : List String) :
    kbHtml (k :: ks) ≠ "" := by
  intro he
  have h := kbHtml_count_lt (k :: ks)
  rw [he] at h
  simp [countChar] at h

/-- C10: every record-derived string interpolated into a data row —
product, description, each KB id, the known-issues URL, the source link
URL and the source label — passes through `html_escape`, whose output
contains no `<`, `>` or `"`; consequently the number of `<` characters in
a rendered row is a constant of the template (18 plus 2 per KB badge),
independent of the record's string contents: record content cannot inject
markup. -/
theorem rowHtml_escapes_record_content :
    (∀ s : String, countChar '<' (html_escape s) = 0 ∧
      countChar '>' (html_escape s) = 0 ∧ countChar '"' (html_escape s) = 0) ∧
    (∀ r : Row, countChar '<' (rowHtml r) = 18 + 2 * r.kbs.length) := by
  constructor
  · intro s
    exact ⟨html_escape_no_markup s '<' (Or.inl rfl),
      html_escape_no_markup s '>' (Or.inr (Or.inl rfl)),
      html_escape_no_markup s '"' (Or.inr (Or.inr rfl))⟩
  · intro r
    have e1 : countChar '<' "\n        <tr>\n          <td>" = 2 := by decide
    have e2 : countChar '<' "</td>\n          <td>" = 2 := by decide
    have e4 : countChar '<' "</td>\n          <td><a class=\"known\" href=\"" = 3 := by
      decide
    have e5 : countChar '<'
        "\" target=\"_blank\" rel=\"noopener\">Release Health</a></td>\n          <td>" =
        3 := by decide
    have e6 : countChar '<' "</td>\n          <td><a class=\"src\" href=\"" = 3 := by
      decide
    have e7 : countChar '<' "\" target=\"_blank\" rel=\"noopener\">" = 0 := by decide
    have e8 : countChar '<' "</a></td>\n        </tr>\n        " = 3 := by decide
    have edash : countChar '<' "—" = 0 := by decide
    have hesc : ∀ s : String, countChar '<' (html_escape s) = 0 :=
      fun s => html_escape_no_markup s '<' (Or.inl rfl)
    unfold rowHtml
    simp only [countChar_append, e1, e2, e4, e5, e6, e7, e8, hesc,
      fmtDate_count_lt]
    cases hk : r.kbs with
    | nil =>
      rw [if_pos (show kbHtml [] = "" from rfl)]
      simp only [edash, List.length_nil]
    | cons k ks =>
      rw [if_neg (kbHtml_ne_empty k ks), kbHtml_count_lt]
      simp only [List.length_cons]
      omega

end WindowsReport
